import Mathlib

/-!
Verification of the jsonMdBridge converters (`src/converters/jsonToMarkdown.ts`):
a shallow embedding of the encoder `jsonToMarkdown`, the decoder `markdownToJson`
and their shared helpers (`escapeMarkdown`, `parseCellValue`, `toCamelCase`,
`isTable`, `parseTable`, `parseContent`, `arrayToTable`), followed by theorems
about the behaviour of these functions.

Modelling conventions:
* JavaScript strings are modelled as Lean `String`; all string primitives used
  by the source (`split`, `trim`, `slice`, `startsWith`, `endsWith`,
  `includes`, `join`) are implemented here over `String.data` (`List Char`),
  mirroring the JavaScript semantics (all text involved is ASCII).
* JavaScript numbers are IEEE doubles.  Every numeric literal in this
  development (small integers, short decimal fractions such as `19.99`) is
  exactly representable and round-trips through its shortest decimal
  rendering, so numbers are modelled as exact scaled decimals
  (`mant * 10 ^ (-exp)` in canonical form), with `String(n)` as decimal
  rendering and `parseInt` / `parseFloat` as exact decimal parsing.  This is
  observationally equal to double semantics on every value appearing here.
* The regular expressions of the source are modelled by hand-rolled scanners
  that implement the exact match semantics of each regex (leftmost match,
  lazy/greedy quantifiers); each scanner notes the regex it implements.
-/

namespace JsonMdBridge

/-- A JavaScript value as consumed by `jsonToMarkdown` and produced by
`markdownToJson`: `null`, `undefined`, booleans, numbers, strings, `Date`
objects (carrying their `toISOString()` rendering, the only observation the
source makes of them), arrays and plain objects (insertion-ordered fields,
unique keys). -/
inductive Json where
  | null : Json
  | undef : Json
  | bool (b : Bool) : Json
  | num (mant : Int) (exp : Nat) : Json
  | str (s : String) : Json
  | date (isoString : String) : Json
  | arr (xs : List Json) : Json
  | obj (fields : List (String × Json)) : Json

/-- Whitespace as matched by the `\s` regex class and `String.prototype.trim`
(the inputs here are ASCII, where the two notions agree with this one). -/
def isWsChar (c : Char) : Bool := c.isWhitespace

/-- JavaScript `String.prototype.trim`. -/
def jsTrim (s : String) : String :=
  String.mk (((s.data.dropWhile isWsChar).reverse.dropWhile isWsChar).reverse)

/-- JavaScript `String.prototype.slice(n)` (take the suffix from index `n`). -/
def strDrop (s : String) (n : Nat) : String :=
  String.mk (s.data.drop n)

/-- Does the character list `l` start with `p`? -/
def listStartsWith : List Char → List Char → Bool
  | _, [] => true
  | [], _ :: _ => false
  | c :: cs, d :: ds => if c = d then listStartsWith cs ds else false

/-- JavaScript `String.prototype.startsWith`. -/
def strStartsWith (s p : String) : Bool :=
  listStartsWith s.data p.data

/-- JavaScript `String.prototype.endsWith`. -/
def strEndsWith (s p : String) : Bool :=
  listStartsWith s.data.reverse p.data.reverse

/-- Does the character list `hay` contain `pat` as a contiguous run? -/
def listContains : List Char → List Char → Bool
  | [], pat => listStartsWith [] pat
  | hay@(_ :: tl), pat => listStartsWith hay pat || listContains tl pat

/-- JavaScript `String.prototype.includes`. -/
def strContains (s p : String) : Bool :=
  listContains s.data p.data

/-- Auxiliary state machine for `jsSplit`. -/
def splitCharAux (sep : Char) : List Char → List Char → List (List Char)
  | [], acc => [acc.reverse]
  | c :: rest, acc =>
    if c = sep then acc.reverse :: splitCharAux sep rest []
    else splitCharAux sep rest (c :: acc)

/-- JavaScript `String.prototype.split(sep)` for a one-character separator:
splits at every occurrence, keeping empty pieces (`"".split` is `[""]`). -/
def jsSplit (sep : Char) (s : String) : List String :=
  (splitCharAux sep s.data []).map String.mk

/-- JavaScript `Array.prototype.join(sep)`. -/
def joinSep (sep : String) : List String → String
  | [] => ""
  | [x] => x
  | x :: xs => x ++ sep ++ joinSep sep xs

/-- JavaScript `Array.prototype.join("\n")`, as used by both converters. -/
def joinLines (l : List String) : String :=
  joinSep "\n" l

/-- Decimal digit list of a natural number (most significant first). -/
def natDigits (n : Nat) : List Char :=
  (toString n).data

/-- JavaScript `String(n)` for a number `mant * 10 ^ (-exp)`: plain integer
rendering when `exp = 0`, otherwise the digits with a decimal point before the
last `exp` digits, zero-padded on the left as needed (`String(0.5) = "0.5"`). -/
def jsNumString (mant : Int) (exp : Nat) : String :=
  match exp with
  | 0 => toString mant
  | e + 1 =>
    let sign := if mant < 0 then "-" else ""
    let ds := natDigits mant.natAbs
    let padded := if ds.length ≤ e + 1 then List.replicate (e + 2 - ds.length) '0' ++ ds else ds
    sign ++ String.mk (padded.take (padded.length - (e + 1))) ++ "." ++
      String.mk (padded.drop (padded.length - (e + 1)))

/-- Canonical form of a scaled decimal: drop trailing zero fraction digits, so
that the representation is unique per numeric value (JavaScript numbers are
values, not digit strings: `parseFloat("1.50")` is the same number as `1.5`). -/
def normNum : Int → Nat → Int × Nat
  | m, 0 => (m, 0)
  | m, e + 1 => if m % 10 = 0 then normNum (m / 10) e else (m, e + 1)

/-- Numeric value of a list of decimal digits. -/
def digitsVal (l : List Char) : Nat :=
  l.foldl (fun acc c => acc * 10 + (c.toNat - '0'.toNat)) 0

/-- The regex test `/^-?\d+$/` from `parseCellValue`. -/
def intPat (s : String) : Bool :=
  match s.data with
  | '-' :: rest => !rest.isEmpty && rest.all Char.isDigit
  | l => !l.isEmpty && l.all Char.isDigit

/-- The regex test `/^-?\d*\.\d+$/` from `parseCellValue`. -/
def decPat (s : String) : Bool :=
  let l := match s.data with
    | '-' :: rest => rest
    | l => l
  let ip := l.takeWhile Char.isDigit
  match l.drop ip.length with
  | '.' :: frac => !frac.isEmpty && frac.all Char.isDigit
  | _ => false

/-- JavaScript `parseInt(s, 10)` on a string matching `/^-?\d+$/`. -/
def parseIntJs (s : String) : Json :=
  match s.data with
  | '-' :: rest => Json.num (-(Int.ofNat (digitsVal rest))) 0
  | l => Json.num (Int.ofNat (digitsVal l)) 0

/-- JavaScript `parseFloat(s)` on a string matching `/^-?\d*\.\d+$/`: the exact
decimal value, in canonical form. -/
def parseFloatJs (s : String) : Json :=
  let sl := match s.data with
    | '-' :: rest => ((-1 : Int), rest)
    | l => ((1 : Int), l)
  let ip := sl.2.takeWhile Char.isDigit
  let fp := match sl.2.drop ip.length with
    | '.' :: frac => frac.takeWhile Char.isDigit
    | _ => []
  let n := normNum (sl.1 * Int.ofNat (digitsVal (ip ++ fp))) fp.length
  Json.num n.1 n.2

/-- Character-level worker for `escapeMarkdown`. -/
def escapeList : List Char → List Char
  | [] => []
  | c :: rest => if c = '|' then '\\' :: '|' :: escapeList rest else c :: escapeList rest

/-- Source `escapeMarkdown`: `text.replace(/\|/g, '\\|')` — every pipe becomes
backslash-pipe, every other character is kept as is. -/
def escapeMarkdown (text : String) : String :=
  String.mk (escapeList text.data)

/-- Source `isPrimitive`: null, undefined, string, number or boolean. -/
def isPrimitive : Json → Bool
  | Json.null => true
  | Json.undef => true
  | Json.str _ => true
  | Json.num _ _ => true
  | Json.bool _ => true
  | _ => false

/-- The own enumerable properties of a value, as seen by `Object.entries` /
`Object.keys` (`Date` instances have none). -/
def objEntries : Json → List (String × Json)
  | Json.obj fields => fields
  | _ => []

/-- JavaScript `typeof v === 'object' && v !== null && !Array.isArray(v)`
(true for plain objects and for `Date` instances). -/
def isObjectLike : Json → Bool
  | Json.obj _ => true
  | Json.date _ => true
  | _ => false

/-- Source `isObjectArray`: nonempty, and every element is a non-array object. -/
def isObjectArray (xs : List Json) : Bool :=
  decide (0 < xs.length) && xs.all isObjectLike

/-- JavaScript `String(v)` on a primitive value (the only values it is applied
to by the source). -/
def jsScalarString : Json → String
  | Json.str s => s
  | Json.num m e => jsNumString m e
  | Json.bool b => if b then "true" else "false"
  | Json.null => "null"
  | Json.undef => "undefined"
  | Json.date isoString => isoString
  | Json.arr _ => ""
  | Json.obj _ => ""

/-- Property lookup `o[key]` (`none` models `undefined` for an absent key;
object keys are unique by construction in the source format). -/
def objGet (o : Json) (key : String) : Option Json :=
  ((objEntries o).find? (fun f => f.fst == key)).map Prod.snd

/-- Key accumulation of `arrayToTable`: a `Set` preserving insertion order. -/
def insertKey (acc : List String) (k : String) : List String :=
  if acc.contains k then acc else acc ++ [k]

/-- Cell rendering policy of `arrayToTable` (`none` is an absent key). -/
def cellString : Option Json → String
  | none => "_null_"
  | some Json.null => "_null_"
  | some Json.undef => "_null_"
  | some (Json.obj _) => "_object_"
  | some (Json.date _) => "_object_"
  | some (Json.arr xs) => "_array[" ++ toString xs.length ++ "]_"
  | some v => escapeMarkdown (jsScalarString v)

/-- Source `arrayToTable`: header row over the ordered union of all row keys,
a `---` separator row, one pipe row per element (the `_maxDepth` parameter is
unused by the source as well). -/
def arrayToTable (arr : List Json) (depth indentSize maxDepth : Nat) : String :=
  if arr.length = 0 then ""
  else
    let keys := arr.foldl (fun acc o => ((objEntries o).map Prod.fst).foldl insertKey acc) []
    if keys.length = 0 then ""
    else
      let _ := maxDepth
      let indent := String.mk (List.replicate (depth * indentSize) ' ')
      let headerRow := "| " ++ joinSep " | " (keys.map (fun k => escapeMarkdown k)) ++ " |"
      let separatorRow := "| " ++ joinSep " | " (keys.map (fun _ => "---")) ++ " |"
      let rows := arr.map (fun o =>
        "| " ++ joinSep " | " (keys.map (fun key => cellString (objGet o key))) ++ " |")
      joinLines ((headerRow :: separatorRow :: rows).map (fun row => indent ++ row))

/-- The fixed truncation marker of the depth guard. -/
def truncationMarker : String := "_... (max depth reached)_"

/-- Source `convertValue`, made total with a structural fuel argument: the
wrapper `convertValue` below calls it with fuel `maxDepth + 1 - depth`; each
recursive call raises `depth` by one and lowers the fuel by one, so the fuel
hits `0` exactly when `depth` reaches `maxDepth + 1`, where the source's depth
guard `depth > maxDepth` returns the truncation marker — the `0` case below
returns the same marker, so the fueled function agrees with the source. -/
def convertValueFuel : Nat → Json → Nat → Nat → Nat → Bool → Bool → Nat → String
  | 0, _, _, _, _, _, _, _ => truncationMarker
  | fuel + 1, value, depth, headingLevel, indentSize, useNumberedLists, arraysAsTables, maxDepth =>
    if maxDepth < depth then truncationMarker
    else
      let indent := String.mk (List.replicate (depth * indentSize) ' ')
      match value with
      | Json.null => "null"
      | Json.undef => "undefined"
      | Json.bool b => if b then "true" else "false"
      | Json.num m e => jsNumString m e
      | Json.str s => escapeMarkdown s
      | Json.date isoString => isoString
      | Json.arr xs =>
        if arraysAsTables && decide (0 < xs.length) && isObjectArray xs then
          arrayToTable xs depth indentSize maxDepth
        else if xs.length = 0 then indent ++ "- _empty array_"
        else
          joinLines (xs.enum.map (fun p =>
            let pfx := if useNumberedLists then toString (p.fst + 1) ++ "." else "-"
            let itemContent := convertValueFuel fuel p.snd (depth + 1) headingLevel indentSize
              useNumberedLists arraysAsTables maxDepth
            indent ++ pfx ++ " " ++ itemContent))
      | Json.obj entries =>
        if entries.length = 0 then indent ++ "_empty object_"
        else
          joinLines (entries.map (fun f =>
            let keyStr := "**" ++ escapeMarkdown f.fst ++ "**:"
            let valStr := convertValueFuel fuel f.snd (depth + 1) headingLevel indentSize
              useNumberedLists arraysAsTables maxDepth
            if isPrimitive f.snd then indent ++ "- " ++ keyStr ++ " " ++ valStr
            else indent ++ "- " ++ keyStr ++ "\n" ++ valStr))

/-- Source `convertValue` (see `convertValueFuel` for the fuel invariant). -/
def convertValue (value : Json) (depth headingLevel indentSize : Nat)
    (useNumberedLists arraysAsTables : Bool) (maxDepth : Nat) : String :=
  convertValueFuel (maxDepth + 1 - depth) value depth headingLevel indentSize
    useNumberedLists arraysAsTables maxDepth

/-- Source `JsonToMarkdownOptions` with its documented defaults. -/
structure JsonToMarkdownOptions where
  headingLevel : Nat := 1
  indentSize : Nat := 2
  useNumberedLists : Bool := false
  arraysAsTables : Bool := false
  maxDepth : Nat := 10

/-- Source `jsonToMarkdown`: resolve option defaults, convert from depth 0. -/
def jsonToMarkdown (data : Json) (options : JsonToMarkdownOptions := {}) : String :=
  convertValue data 0 options.headingLevel options.indentSize options.useNumberedLists
    options.arraysAsTables options.maxDepth

/-- The `\w` regex class: ASCII letters, digits and underscore. -/
def isWordChar (c : Char) : Bool := c.isAlphanum || c = '_'

/-- One step of the scan `/(?:^\w|[A-Z]|\b\w)/g` with the replacement callback
`(word, index) => index === 0 ? word.toLowerCase() : word.toUpperCase()` from
`toCamelCase`.  Every alternative matches exactly one character, so the global
scan visits each position once; `prev` is the previous character of the
original string and `i` the current offset (the callback's second argument is
the match offset).  A word boundary sits before position `i` iff `i = 0` or
the previous character is not a word character — note that `_` is a word
character, so no boundary follows an underscore. -/
def camelScan (prev : Option Char) (i : Nat) : List Char → List Char
  | [] => []
  | c :: rest =>
    let boundary := match prev with
      | none => true
      | some p => !isWordChar p
    let matched := (decide (i = 0) && isWordChar c) || c.isUpper || (isWordChar c && boundary)
    let c2 := if matched then (if i = 0 then c.toLower else c.toUpper) else c
    c2 :: camelScan (some c) (i + 1) rest

/-- Source `toCamelCase`: the regex scan above, then `.replace(/\s+/g, '')`
(drop whitespace), then `.replace(/[_-]/g, '')` (drop underscores/hyphens). -/
def toCamelCase (str : String) : String :=
  String.mk (((camelScan none 0 str.data).filter (fun c => !isWsChar c)).filter
    (fun c => !(c = '_' || c = '-')))

/-- Lazy key search for the regex `/\*\*(.+?)\*\*:\s*(.+)/` at a fixed start:
grow the key one character at a time (shortest first) and accept as soon as
the remainder starts with `**:` followed by at least one character (any
nonempty tail satisfies `\s*(.+)` because `.` also matches a space). -/
def matchKeyFrom : List Char → List Char → Option (List Char × List Char)
  | [], _ => none
  | c :: rest, acc =>
    let acc2 := acc ++ [c]
    match rest with
    | '*' :: '*' :: ':' :: tail =>
      if tail.isEmpty then matchKeyFrom rest acc2 else some (acc2, tail)
    | _ => matchKeyFrom rest acc2

/-- `content.match(/\*\*(.+?)\*\*:\s*(.+)/)`: leftmost match wins, so try each
start position in turn; a match needs a literal `**` there.  On success the
result is the key (group 1) and the raw tail after `**:`; composed with the
source's `.trim()` on group 2, trimming that tail yields exactly the trimmed
group 2 (`\s*` only absorbs whitespace that trimming removes anyway). -/
def findKeyValue : List Char → Option (List Char × List Char)
  | [] => none
  | cs@(_ :: tl) =>
    match cs with
    | '*' :: '*' :: rest =>
      match matchKeyFrom rest [] with
      | some r => some r
      | none => findKeyValue tl
    | _ => findKeyValue tl

/-- The regex test `/^array\[\d+\]$/` from `parseCellValue`. -/
def arrayPat (l : List Char) : Bool :=
  match l with
  | 'a' :: 'r' :: 'r' :: 'a' :: 'y' :: '[' :: rest =>
    let ds := rest.takeWhile Char.isDigit
    !ds.isEmpty &&
      (match rest.drop ds.length with
       | [']'] => true
       | _ => false)
  | _ => false

/-- `trimmed.replace(/^_|_$/g, '')`: drop one leading and one trailing
underscore (on `"_"` the single character is consumed by the first
alternative, so the result is empty — matched by `dropLast` on `[]`). -/
def stripEmphasis (s : String) : String :=
  let l := s.data
  let l2 := if l.head? = some '_' then l.drop 1 else l
  let l3 := if l2.getLast? = some '_' then l2.dropLast else l2
  String.mk l3

/-- Source `parseCellValue`: scalar inference for table cells and list/value
text, in the source's exact order of checks. -/
def parseCellValue (cell : String) : Json :=
  let trimmed := jsTrim cell
  if trimmed = "_null_" ∨ trimmed = "null" ∨ trimmed = "" then Json.null
  else if trimmed = "true" then Json.bool true
  else if trimmed = "false" then Json.bool false
  else if intPat trimmed then parseIntJs trimmed
  else if decPat trimmed then parseFloatJs trimmed
  else
    let special : Option Json :=
      if strStartsWith trimmed "_" && strEndsWith trimmed "_" then
        let inner := String.mk ((trimmed.data.drop 1).dropLast)
        if inner = "object" then some (Json.obj [])
        else if inner = "empty array" then some (Json.arr [])
        else if inner = "empty object" then some (Json.obj [])
        else if arrayPat inner.data then some (Json.arr [])
        else none
      else none
    match special with
    | some v => v
    | none => Json.str (stripEmphasis trimmed)

/-- Does a line both start and end with a pipe (the table-line test used by
`isTable` and `parseTable`)? -/
def pipeLine (l : String) : Bool :=
  strStartsWith l "|" && strEndsWith l "|"

/-- The regex test `/^\|\s*-+\s*\|/` on the candidate separator row (on the
empty string the source's truthiness check returns false, as does the regex). -/
def sepRowTest (s : String) : Bool :=
  match s.data with
  | '|' :: rest =>
    let r1 := rest.dropWhile isWsChar
    let dashes := r1.takeWhile (fun c => c = '-')
    if dashes.isEmpty then false
    else
      match (r1.drop dashes.length).dropWhile isWsChar with
      | '|' :: _ => true
      | _ => false
  | _ => false

/-- Source `isTable`: at least two lines, a first pipe-delimited line that is
not the last line, and a separator-shaped line right after it.  (The source
takes `lines.indexOf` of the line found by `lines.find`, which is the index of
the first line satisfying the predicate, i.e. `findIdx?`.) -/
def isTable (lines : List String) : Bool :=
  if lines.length < 2 then false
  else
    match lines.findIdx? pipeLine with
    | none => false
    | some headerIndex =>
      if lines.length - 1 ≤ headerIndex then false
      else sepRowTest (lines.getD (headerIndex + 1) "")

/-- Length of the run of consecutive pipe-delimited lines, modelling the
source's `endIndex` scan: `endIndex` is the first non-pipe index after the
header, or `lines.length` when the run reaches the end. -/
def pipeRunLength : List String → Nat
  | [] => 0
  | line :: tl => if pipeLine line then pipeRunLength tl + 1 else 0

/-- Row diagnostic of `parseTable` (1-based position relative to table start
counting the separator, per the source's `i - startIndex - 1`). -/
def rowMsg (k : Nat) : String :=
  "Row " ++ (toString k ++ ": column count mismatch")

/-- One output mapping of `parseTable`: `rowObj[header] = parseCellValue(cells[idx])`
for each header, in order (assignment overwrites in place, else appends). -/
def objInsert (fields : List (String × Json)) (k : String) (v : Json) : List (String × Json) :=
  if fields.any (fun f => f.fst == k) then
    fields.map (fun f => if f.fst == k then (k, v) else f)
  else fields ++ [(k, v)]

/-- Build one row object from headers and (equally many) cells. -/
def buildRow (headers cells : List String) : List (String × Json) :=
  headers.enum.foldl (fun acc p => objInsert acc p.snd (parseCellValue (cells.getD p.fst ""))) []

/-- The data-row loop of `parseTable` over the row indices: non-pipe rows are
skipped; the cells are the `|`-split pieces trimmed, keeping only split
indices `1 .. headers.length` (index 0 is the empty piece before the leading
pipe); a cell count differing from the header count appends a diagnostic and
skips the row. -/
def tableRows (lines headers : List String) (startIndex : Nat) :
    List Nat → List (List (String × Json)) × List String
  | [] => ([], [])
  | i :: rest =>
    let row := lines.getD i ""
    if !pipeLine row then tableRows lines headers startIndex rest
    else
      let parts := (jsSplit '|' row).map jsTrim
      let cells := (parts.enum.filter (fun p =>
        decide (0 < p.fst) && decide (p.fst ≤ headers.length))).map Prod.snd
      if cells.length = headers.length then
        let r := tableRows lines headers startIndex rest
        (buildRow headers cells :: r.1, r.2)
      else
        let r := tableRows lines headers startIndex rest
        (r.1, rowMsg (i - startIndex - 1) :: r.2)

/-- Source `parseTable`: locate the first pipe-delimited line and the end of
its contiguous run, read the headers from the first line (trimmed nonempty
`|`-split pieces, optionally camel-cased), skip the separator row
unconditionally, then decode each remaining row of the run.  Returns the
decoded mappings and the diagnostics pushed (in order). -/
def parseTable (lines : List String) (camelCaseKeys : Bool) :
    List (List (String × Json)) × List String :=
  match lines.findIdx? pipeLine with
  | none => ([], ["Table header not found"])
  | some startIndex =>
    let endIndex := startIndex + 1 + pipeRunLength (lines.drop (startIndex + 1))
    let headerLine := lines.getD startIndex ""
    let headers := (((jsSplit '|' headerLine).map jsTrim).filter
      (fun h => !h.data.isEmpty)).map (fun h => if camelCaseKeys then toCamelCase h else h)
    tableRows lines headers startIndex (List.range' (startIndex + 2) (endIndex - (startIndex + 2)))

/-- Is a value the JavaScript `null` (the check `nested.value !== null`)? -/
def isNullJson : Json → Bool
  | Json.null => true
  | _ => false

/-- The regex test `/^\d+\.\s/` for a numbered list line. -/
def numberedTest (s : String) : Bool :=
  let ds := s.data.takeWhile Char.isDigit
  if ds.isEmpty then false
  else
    match s.data.drop ds.length with
    | '.' :: c :: _ => isWsChar c
    | _ => false

/-- `line.replace(/^\d+\.\s+/, '')`: strip the numeric prefix and the greedy
whitespace run when the pattern matches at the start, else leave unchanged. -/
def stripNumbered (s : String) : String :=
  let ds := s.data.takeWhile Char.isDigit
  if ds.isEmpty then s
  else
    match s.data.drop ds.length with
    | '.' :: c :: rest =>
      if isWsChar c then String.mk ((c :: rest).dropWhile isWsChar) else s
    | _ => s

/-- The `while` loop collecting consecutive `- ` lines into a list: returns
the parsed items and how many lines were consumed. -/
def collectBullets : List String → List Json × Nat
  | [] => ([], 0)
  | line :: tl =>
    if strStartsWith line "- " then
      let r := collectBullets tl
      (parseCellValue (jsTrim (strDrop line 2)) :: r.1, r.2 + 1)
    else ([], 0)

/-- The `while` loop collecting consecutive numbered lines (no renumbering
check): parsed items plus the number of lines consumed. -/
def collectNumbered : List String → List Json × Nat
  | [] => ([], 0)
  | line :: tl =>
    if numberedTest line then
      let r := collectNumbered tl
      (parseCellValue (jsTrim (stripNumbered line)) :: r.1, r.2 + 1)
    else ([], 0)

/-- `Object.assign(obj, more)`: merge the fields of `more` into `obj` in
order. -/
def objAssign (base more : List (String × Json)) : List (String × Json) :=
  more.foldl (fun acc f => objInsert acc f.fst f.snd) base

/-- Source `parseContent`, made total with a structural fuel argument;
`markdownToJson` calls it with fuel `lines.length + 1`.  Every recursive call
of the source happens at an index that is strictly larger than the current one
and still below `lines.length`, so the recursion depth is at most
`lines.length` and the fuel-exhausted case (which mirrors the end-of-input
return) is never reached from the wrapper.  The source threads a diagnostics
array through `parseContent` but never appends to it, so the parameter is
omitted here.  Returns the parsed value and the first unconsumed index. -/
def parseContent (fuel : Nat) (lines : List String) (startIndex : Nat)
    (parseNumberedLists camelCaseKeys : Bool) : Json × Nat :=
  match fuel with
  | 0 => (Json.null, startIndex)
  | fuel + 1 =>
    if lines.length ≤ startIndex then (Json.null, startIndex)
    else
      let line := lines.getD startIndex ""
      if strStartsWith line "- " then
        let content := jsTrim (strDrop line 2)
        if strContains content "**" && strContains content ":" then
          match findKeyValue content.data with
          | some kv =>
            let key := if camelCaseKeys then toCamelCase (String.mk kv.1) else String.mk kv.1
            let v0 := parseCellValue (jsTrim (String.mk kv.2))
            let n0 := startIndex + 1
            let p1 : Json × Nat :=
              if decide (n0 < lines.length) && strStartsWith (lines.getD n0 "") "  " then
                let nested := parseContent fuel lines n0 parseNumberedLists camelCaseKeys
                if isNullJson nested.1 then (v0, n0) else (nested.1, nested.2)
              else (v0, n0)
            let obj0 : List (String × Json) := [(key, p1.1)]
            let p2 : List (String × Json) × Nat :=
              if decide (p1.2 < lines.length) && strStartsWith (lines.getD p1.2 "") "- " then
                let more := parseContent fuel lines p1.2 parseNumberedLists camelCaseKeys
                match more.1 with
                | Json.obj fields => (objAssign obj0 fields, more.2)
                | _ => (obj0, p1.2)
              else (obj0, p1.2)
            (Json.obj p2.1, p2.2)
          | none =>
            let v := parseCellValue content
            let r := collectBullets (lines.drop (startIndex + 1))
            let items := v :: r.1
            (if items.length = 1 then v else Json.arr items, startIndex + 1 + r.2)
        else
          let v := parseCellValue content
          let r := collectBullets (lines.drop (startIndex + 1))
          let items := v :: r.1
          (if items.length = 1 then v else Json.arr items, startIndex + 1 + r.2)
      else if parseNumberedLists && numberedTest line then
        let content := jsTrim (stripNumbered line)
        let r := collectNumbered (lines.drop (startIndex + 1))
        (Json.arr (parseCellValue content :: r.1), startIndex + 1 + r.2)
      else (Json.null, startIndex + 1)

/-- Source `MarkdownToJsonOptions` with its documented defaults. -/
structure MarkdownToJsonOptions where
  parseNumberedLists : Bool := true
  parseTables : Bool := true
  camelCaseKeys : Bool := false

/-- Source `MarkdownToJsonResult`: parsed value plus ordered diagnostics. -/
structure MarkdownToJsonResult where
  data : Json
  errors : List String

/-- Source `markdownToJson`: split into lines, trim every line, then either
parse the whole input as a table or as structured content from line 0.  The
source wraps the body in `try/catch` whose handler appends a single
`"Fatal error: ..."` diagnostic and nulls the result; every operation in the
body is total (all line accesses are bounds-guarded), so the handler is
unreachable and the model is the body itself; the no-fatal-diagnostics
theorem below records that no produced diagnostic is ever a fatal one. -/
def markdownToJson (markdown : String) (options : MarkdownToJsonOptions := {}) :
    MarkdownToJsonResult :=
  let lines := (jsSplit '\n' markdown).map jsTrim
  if options.parseTables && isTable lines then
    let r := parseTable lines options.camelCaseKeys
    { data := Json.arr (r.1.map Json.obj), errors := r.2 }
  else
    { data := (parseContent (lines.length + 1) lines 0 options.parseNumberedLists
        options.camelCaseKeys).1,
      errors := [] }

/-- A diagnostic of the fatal tier: the `catch` handler of `markdownToJson` is
the only place the source ever builds a string starting with `Fatal error:`. -/
def fatalDiag (e : String) : Bool :=
  strStartsWith e "Fatal error:"

/-- The mapping `{ count: 42, price: 19.99, active: true, disabled: false }`. -/
def scalarsExample : Json :=
  Json.obj [("count", Json.num 42 0), ("price", Json.num 1999 2),
    ("active", Json.bool true), ("disabled", Json.bool false)]

/-- The array `[{name:"John",age:30},{name:"Jane",age:25}]`. -/
def tableExample : List Json :=
  [Json.obj [("name", Json.str "John"), ("age", Json.num 30 0)],
   Json.obj [("name", Json.str "Jane"), ("age", Json.num 25 0)]]

/-- A mapping nested `n` levels deep, as in the very-deep-nesting test of the
source (each level a single key holding the next level). -/
def nestObj : Nat → Json
  | 0 => Json.str "deep"
  | n + 1 => Json.obj [("level", nestObj n)]

/-! Adequacy of the fueled embeddings: the results of `convertValueFuel` and
`parseContent` do not depend on the fuel, as long as it is at least the amount
the wrappers supply (`maxDepth + 1 - depth` and `lines.length + 1`), so the
fuel is not observable and the fueled functions compute exactly the source's
recursions. -/

/-- Fuel adequacy for `convertValueFuel`: any two fuels of at least
`maxDepth + 1 - depth` give the same result. -/
theorem convertValueFuel_irrelevant :
    ∀ (f g : Nat) (v : Json) (d hl ind m : Nat) (unl tbl : Bool),
      m + 1 - d ≤ f → m + 1 - d ≤ g →
      convertValueFuel f v d hl ind unl tbl m = convertValueFuel g v d hl ind unl tbl m := by
  intro f
  induction f with
  | zero =>
    intro g v d hl ind m unl tbl hf hg
    cases g with
    | zero => rfl
    | succ g2 =>
      show truncationMarker = convertValueFuel (g2 + 1) v d hl ind unl tbl m
      rw [convertValueFuel, if_pos (by omega : m < d)]
  | succ f2 ih =>
    intro g v d hl ind m unl tbl hf hg
    cases g with
    | zero =>
      show convertValueFuel (f2 + 1) v d hl ind unl tbl m = truncationMarker
      rw [convertValueFuel, if_pos (by omega : m < d)]
    | succ g2 =>
      rw [convertValueFuel, convertValueFuel]
      by_cases hd : m < d
      · rw [if_pos hd, if_pos hd]
      · rw [if_neg hd, if_neg hd]
        have h1 : m + 1 - (d + 1) ≤ f2 := by omega
        have h2 : m + 1 - (d + 1) ≤ g2 := by omega
        cases v with
        | null => rfl
        | undef => rfl
        | bool b => rfl
        | num mm e => rfl
        | str s => rfl
        | date s => rfl
        | arr xs =>
          dsimp only
          split
          · rfl
          · split
            · rfl
            · congr 1
              apply List.map_congr_left
              intro p hp
              dsimp only
              rw [ih g2 p.snd (d + 1) hl ind m unl tbl h1 h2]
        | obj entries =>
          dsimp only
          split
          · rfl
          · congr 1
            apply List.map_congr_left
            intro p hp
            dsimp only
            rw [ih g2 p.snd (d + 1) hl ind m unl tbl h1 h2]

/-- The structured-content parser can only move forward: the first unconsumed
index it reports is never below the index it started at. -/
theorem parseContent_next_ge (f : Nat) :
    ∀ (lines : List String) (i : Nat) (pnl cck : Bool),
      i ≤ (parseContent f lines i pnl cck).2 := by
  induction f with
  | zero => intro lines i pnl cck; exact le_refl i
  | succ f2 ih =>
    intro lines i pnl cck
    have h1 := ih lines (i + 1) pnl cck
    have h2 := ih lines (parseContent f2 lines (i + 1) pnl cck).2 pnl cck
    rw [parseContent]
    by_cases h0 : lines.length ≤ i
    · rw [if_pos h0]
    · rw [if_neg h0]
      dsimp only
      repeat' split
      all_goals dsimp only
      all_goals omega

/-- Past the end of the lines the parser returns null without consuming
anything, whatever the fuel. -/
theorem parseContent_at_end (f : Nat) (lines : List String) (i : Nat) (pnl cck : Bool)
    (h : lines.length ≤ i) : parseContent f lines i pnl cck = (Json.null, i) := by
  cases f with
  | zero => rfl
  | succ f2 => rw [parseContent, if_pos h]

/-- Fuel adequacy for `parseContent`: any two fuels of at least the number of
remaining lines give the same result (every recursive call of the source moves
to a strictly larger index, so `lines.length + 1` steps always suffice). -/
theorem parseContent_fuel_irrelevant :
    ∀ (k f g : Nat) (lines : List String) (i : Nat) (pnl cck : Bool),
      lines.length - i ≤ k → lines.length - i ≤ f → lines.length - i ≤ g →
      parseContent f lines i pnl cck = parseContent g lines i pnl cck := by
  intro k
  induction k with
  | zero =>
    intro f g lines i pnl cck hk hf hg
    rw [parseContent_at_end f lines i pnl cck (by omega),
      parseContent_at_end g lines i pnl cck (by omega)]
  | succ k2 ih =>
    intro f g lines i pnl cck hk hf hg
    by_cases h0 : lines.length ≤ i
    · rw [parseContent_at_end f lines i pnl cck h0, parseContent_at_end g lines i pnl cck h0]
    · obtain ⟨f2, rfl⟩ : ∃ f2, f = f2 + 1 := ⟨f - 1, by omega⟩
      obtain ⟨g2, rfl⟩ : ∃ g2, g = g2 + 1 := ⟨g - 1, by omega⟩
      have hnest : parseContent f2 lines (i + 1) pnl cck = parseContent g2 lines (i + 1) pnl cck :=
        ih f2 g2 lines (i + 1) pnl cck (by omega) (by omega) (by omega)
      have hmore : ∀ j, i + 1 ≤ j →
          parseContent f2 lines j pnl cck = parseContent g2 lines j pnl cck :=
        fun j hj => ih f2 g2 lines j pnl cck (by omega) (by omega) (by omega)
      rw [parseContent, parseContent, if_neg h0, if_neg h0]
      dsimp only
      rw [hnest]
      split
      · split
        · split
          · try dsimp only
            split
            · split
              · try dsimp only
                rw [hmore (i + 1) (le_refl _)]
              · try dsimp only
                rw [hmore _ (parseContent_next_ge g2 lines (i + 1) pnl cck)]
            · try dsimp only
              rw [hmore (i + 1) (le_refl _)]
          · rfl
        · rfl
      · rfl

/-- Appending strings concatenates their character data. -/
theorem strData_append (a b : String) : (a ++ b).data = a.data ++ b.data := by
  cases a; cases b; rfl

/-- A row-mismatch diagnostic is not a fatal diagnostic. -/
theorem rowMsg_not_fatal (k : Nat) : fatalDiag (rowMsg k) = false := by
  have h : ∀ l : List Char, listStartsWith ('R' :: l) ("Fatal error:".data) = false :=
    fun l => rfl
  show listStartsWith (rowMsg k).data ("Fatal error:".data) = false
  rw [rowMsg, strData_append]
  exact h _

/-- The data-row loop of `parseTable` never emits a fatal diagnostic. -/
theorem tableRows_fatal_count (lines headers : List String) (si : Nat) :
    ∀ idxs : List Nat, ((tableRows lines headers si idxs).2.countP fatalDiag) = 0 := by
  intro idxs
  induction idxs with
  | nil => rfl
  | cons i rest ih =>
    rw [tableRows]
    split
    · exact ih
    · dsimp only
      split
      · exact ih
      · show List.countP fatalDiag
          (rowMsg (i - si - 1) :: (tableRows lines headers si rest).2) = 0
        simp [List.countP_cons, rowMsg_not_fatal, ih]

/-- `parseTable` never emits a fatal diagnostic. -/
theorem parseTable_fatal_count (lines : List String) (cck : Bool) :
    ((parseTable lines cck).2.countP fatalDiag) = 0 := by
  rw [parseTable]
  cases hfind : lines.findIdx? pipeLine with
  | none => rfl
  | some si => exact tableRows_fatal_count lines _ si _

/-- C1: the claim says that after a key-value bullet `- **key**: value`, a next
input line starting with at least two spaces is parsed recursively as the
key's value.  It is refuted at the input `- **user**: info\n  - **name**: John`:
`markdownToJson` trims every line before parsing, so the two-space check of
`parseContent` is applied to the trimmed line `- **name**: John` and never
fires; the indented bullet is instead merged as a sibling key, giving the flat
mapping `{user: "info", name: "John"}` (and no diagnostics) rather than
`{user: {name: "John"}}`. -/
theorem c1_nested_block_ignored :
    markdownToJson "- **user**: info\n  - **name**: John" {} =
      { data := Json.obj [("user", Json.str "info"), ("name", Json.str "John")],
        errors := [] } := by
  rfl

/-- C2: the claim says a data row with 3 cells under a 2-column header yields
a diagnostic and is dropped.  It is refuted at the table
`| col1 | col2 |` / `| --- | --- |` / `| value1 | value2 | value3 |`:
`parseTable` filters the split pieces to indices `1 .. headers.length`, so the
third cell is silently discarded, the truncated row is kept in the output and
the diagnostics sequence is empty. -/
theorem c2_extra_cells_truncated_without_diagnostic :
    markdownToJson "| col1 | col2 |\n| --- | --- |\n| value1 | value2 | value3 |" {} =
      { data := Json.arr [Json.obj [("col1", Json.str "value1"), ("col2", Json.str "value2")]],
        errors := [] } := by
  rfl

/-- C3: `null` and `undefined` encode to the two distinct literal spellings
`"null"` and `"undefined"`, and decoding either rendering yields the null
value again. -/
theorem c3_null_undefined_round_trip :
    jsonToMarkdown Json.null {} = "null"
  ∧ jsonToMarkdown Json.undef {} = "undefined"
  ∧ "null" ≠ "undefined"
  ∧ (markdownToJson (jsonToMarkdown Json.null {}) {}).data = Json.null
  ∧ (markdownToJson (jsonToMarkdown Json.undef {}) {}).data = Json.null := by
  refine ⟨rfl, rfl, by decide, rfl, rfl⟩

/-- C4: the claim says decoding `- **first_name**: John` with
`camelCaseKeys: true` yields the key `firstName`.  It is refuted: in
`toCamelCase` the word-boundary alternative `\b\w` never matches after an
underscore (underscore is a word character), so the `n` is not upper-cased and
the separators are then deleted, producing the key `firstname`. -/
theorem c4_camelcase_underscore_not_capitalized :
    markdownToJson "- **first_name**: John" { camelCaseKeys := true } =
      { data := Json.obj [("firstname", Json.str "John")], errors := [] }
  ∧ toCamelCase "first_name" = "firstname"
  ∧ ("firstname" : String) ≠ "firstName" := by
  refine ⟨rfl, rfl, by decide⟩

/-- C5: encoding `{ count: 42, price: 19.99, active: true, disabled: false }`
with default options and decoding the result with default options returns
exactly the original mapping — numbers as numbers, booleans as booleans, with
an empty diagnostics sequence. -/
theorem c5_exact_scalar_round_trip :
    markdownToJson (jsonToMarkdown scalarsExample {}) {} =
      { data := scalarsExample, errors := [] } := by
  rfl

/-- C6: encoding `[{name:"John",age:30},{name:"Jane",age:25}]` with
`arraysAsTables: true` produces exactly the header row naming `name` and
`age`, the separator row, and the two data rows in input order; decoding that
text (with the default `parseTables: true`) restores exactly the original
array, ages as numbers, with no diagnostics. -/
theorem c6_table_round_trip :
    jsonToMarkdown (Json.arr tableExample) { arraysAsTables := true } =
      "| name | age |\n| --- | --- |\n| John | 30 |\n| Jane | 25 |"
  ∧ markdownToJson
      (jsonToMarkdown (Json.arr tableExample) { arraysAsTables := true }) {} =
      { data := Json.arr tableExample, errors := [] } := by
  exact ⟨rfl, rfl⟩

/-- C7: `markdownToJson` is a total function — for every input and option
configuration it returns a best-effort value together with an ordered
diagnostics sequence, and either the fatal path was taken (exactly one fatal
diagnostic, null result) or no fatal diagnostic occurs at all; the body of the
source's `try` block is total, so in fact the second disjunct always holds. -/
theorem c7_no_fatal_diagnostics :
    ∀ (md : String) (opts : MarkdownToJsonOptions),
      ((markdownToJson md opts).data = Json.null ∧
        (markdownToJson md opts).errors.countP fatalDiag = 1) ∨
      (markdownToJson md opts).errors.countP fatalDiag = 0 := by
  intro md opts
  right
  rw [markdownToJson]
  split
  · exact parseTable_fatal_count _ _
  · rfl

/-- C10: the decoder's result (value and diagnostics alike) depends only on
the whitespace-trimmed content of each input line, because `markdownToJson`
trims every line before any parsing: two inputs whose lines agree after
trimming decode identically under every option configuration. -/
theorem c10_trim_invariance :
    ∀ (md1 md2 : String) (opts : MarkdownToJsonOptions),
      (jsSplit '\n' md1).map jsTrim = (jsSplit '\n' md2).map jsTrim →
      markdownToJson md1 opts = markdownToJson md2 opts := by
  intro md1 md2 opts h
  rw [markdownToJson, markdownToJson, h]

/-- Witness for `c10_trim_invariance`: indenting a line and adding trailing
blanks leaves the decoded result unchanged. -/
theorem c10_trim_invariance_witness :
    ((jsSplit '\n' "  - **a**: 1\n   - b").map jsTrim =
      (jsSplit '\n' "- **a**: 1  \n- b ").map jsTrim)
  ∧ markdownToJson "  - **a**: 1\n   - b" {} = markdownToJson "- **a**: 1  \n- b " {} :=
  ⟨by rfl, c10_trim_invariance _ _ {} (by rfl)⟩

/-- Rebuilding a string from its own character data is the identity. -/
theorem strMk_data (s : String) : String.mk s.data = s := by
  cases s; rfl

/-- `escapeList` expands each character independently: a pipe becomes
backslash-pipe, anything else stays itself. -/
theorem escapeList_eq_bind (l : List Char) :
    escapeList l = l.flatMap (fun c => if c = '|' then ['\\', '|'] else [c]) := by
  induction l with
  | nil => rfl
  | cons c rest ih =>
    by_cases hc : c = '|'
    · subst hc; simp [escapeList, ih]
    · simp [escapeList, hc, ih]

/-- On pipe-free input `escapeList` is the identity. -/
theorem escapeList_id (l : List Char) (h : '|' ∉ l) : escapeList l = l := by
  induction l with
  | nil => rfl
  | cons c rest ih =>
    simp only [List.mem_cons, not_or] at h
    simp [escapeList, Ne.symm h.1, ih h.2]

/-- C8: the encoder's escaping rule rewrites every `|` to `\|` and alters no
other character (stated as the per-character expansion and as identity on
pipe-free strings), and it is applied to string scalars, to mapping keys, and
to the table header and scalar cells emitted by `arrayToTable`. -/
theorem c8_pipe_escaping :
    (∀ s : String,
      (escapeMarkdown s).data = s.data.flatMap (fun c => if c = '|' then ['\\', '|'] else [c]))
  ∧ (∀ s : String, '|' ∉ s.data → escapeMarkdown s = s)
  ∧ (∀ (s : String) (d hl ind m : Nat) (unl tbl : Bool), d ≤ m →
      convertValue (Json.str s) d hl ind unl tbl m = escapeMarkdown s)
  ∧ (∀ k s : String,
      (jsonToMarkdown (Json.obj [(k, Json.str s)]) {}).data =
        "- ".data ++ "**".data ++ (escapeMarkdown k).data ++ "**:".data ++
          " ".data ++ (escapeMarkdown s).data)
  ∧ (∀ k s : String,
      (arrayToTable [Json.obj [(k, Json.str s)]] 0 2 10).data =
        "| ".data ++ (escapeMarkdown k).data ++ " |".data ++ "\n".data ++
          "| ".data ++ "---".data ++ " |".data ++ "\n".data ++
          "| ".data ++ (escapeMarkdown s).data ++ " |".data) := by
  refine ⟨?_, ?_, ?_, ?_, ?_⟩
  · intro s
    exact escapeList_eq_bind s.data
  · intro s h
    show String.mk (escapeList s.data) = s
    rw [escapeList_id s.data h, strMk_data]
  · intro s d hl ind m unl tbl h
    have hf : m + 1 - d = (m - d) + 1 := by omega
    rw [convertValue, hf]
    show (if m < d then truncationMarker else escapeMarkdown s) = escapeMarkdown s
    rw [if_neg (by omega)]
  · intro k s
    have e : jsonToMarkdown (Json.obj [(k, Json.str s)]) {} =
        ((((String.mk [] ++ "- ") ++ (("**" ++ escapeMarkdown k) ++ "**:")) ++ " ") ++
          escapeMarkdown s) := rfl
    rw [e]
    simp [strData_append, List.append_assoc]
  · intro k s
    have hfind : objGet (Json.obj [(k, Json.str s)]) k = some (Json.str s) := by
      simp [objGet, objEntries, List.find?]
    have e : arrayToTable [Json.obj [(k, Json.str s)]] 0 2 10 =
        ((String.mk [] ++ (("| " ++ escapeMarkdown k) ++ " |")) ++ "\n") ++
          (((String.mk [] ++ (("| " ++ "---") ++ " |")) ++ "\n") ++
            (String.mk [] ++ (("| " ++
              cellString (objGet (Json.obj [(k, Json.str s)]) k)) ++ " |"))) := rfl
    rw [e, hfind]
    show (((String.mk [] ++ (("| " ++ escapeMarkdown k) ++ " |")) ++ "\n") ++
          (((String.mk [] ++ (("| " ++ "---") ++ " |")) ++ "\n") ++
            (String.mk [] ++ (("| " ++ escapeMarkdown s) ++ " |")))).data = _
    simp [strData_append, List.append_assoc]

/-- Witness for `c8_pipe_escaping`: its conditional parts applied at concrete
inputs. -/
theorem c8_pipe_escaping_witness :
    ('|' ∉ ("ab" : String).data ∧ escapeMarkdown "ab" = "ab")
  ∧ ((0 : Nat) ≤ 10 ∧ convertValue (Json.str "a|b") 0 1 2 false false 10 = escapeMarkdown "a|b") :=
  ⟨⟨by decide, c8_pipe_escaping.2.1 "ab" (by decide)⟩,
   ⟨by decide, c8_pipe_escaping.2.2.1 "a|b" 0 1 2 10 false false (by decide)⟩⟩

/-- Every list starts with the empty pattern. -/
theorem listStartsWith_nil (l : List Char) : listStartsWith l [] = true := by
  cases l <;> rfl

/-- A list starts with its own prefix. -/
theorem listStartsWith_append (p r : List Char) : listStartsWith (p ++ r) p = true := by
  induction p with
  | nil => exact listStartsWith_nil r
  | cons c cs ih => simp [listStartsWith, ih]

/-- Containment follows from a match at the front. -/
theorem listContains_of_sw (l pat : List Char) (h : listStartsWith l pat = true) :
    listContains l pat = true := by
  cases l with
  | nil => simpa [listContains] using h
  | cons c tl => simp [listContains, h]

/-- Containment is preserved by prepending text. -/
theorem listContains_append_left (a b pat : List Char) (h : listContains b pat = true) :
    listContains (a ++ b) pat = true := by
  induction a with
  | nil => simpa using h
  | cons c tl ih =>
    simp only [List.cons_append, listContains, Bool.or_eq_true]
    exact Or.inr ih

/-- Every string contains itself. -/
theorem strContains_self (s : String) : strContains s s = true := by
  apply listContains_of_sw
  simpa using listStartsWith_append s.data []

/-- Containment in the right part of a concatenation. -/
theorem strContains_append_right (x y pat : String) (h : strContains y pat = true) :
    strContains (x ++ y) pat = true := by
  show listContains (x ++ y).data pat.data = true
  rw [strData_append]
  exact listContains_append_left _ _ _ h

/-- Unfolding `convertValue` on one nesting level below the depth ceiling. -/
theorem convertValue_nest_step (k d hl ind m : Nat) (unl tbl : Bool) (hd : d ≤ m) :
    convertValue (nestObj (k + 1)) d hl ind unl tbl m =
      (if isPrimitive (nestObj k) then
        String.mk (List.replicate (d * ind) ' ') ++ "- " ++
          ("**" ++ escapeMarkdown "level" ++ "**:") ++ " " ++
          convertValue (nestObj k) (d + 1) hl ind unl tbl m
      else
        String.mk (List.replicate (d * ind) ' ') ++ "- " ++
          ("**" ++ escapeMarkdown "level" ++ "**:") ++ "\n" ++
          convertValue (nestObj k) (d + 1) hl ind unl tbl m) := by
  have hf : m + 1 - d = (m - d) + 1 := by omega
  have hf2 : m - d = m + 1 - (d + 1) := by omega
  rw [convertValue, hf]
  show (if m < d then truncationMarker else
    joinLines (List.map (fun f =>
      let keyStr := "**" ++ escapeMarkdown f.fst ++ "**:"
      let valStr := convertValueFuel (m - d) f.snd (d + 1) hl ind unl tbl m
      if isPrimitive f.snd then
        String.mk (List.replicate (d * ind) ' ') ++ "- " ++ keyStr ++ " " ++ valStr
      else String.mk (List.replicate (d * ind) ' ') ++ "- " ++ keyStr ++ "\n" ++ valStr)
      [("level", nestObj k)])) = _
  rw [if_neg (by omega)]
  rw [hf2]
  rfl

/-- Any structure nested strictly deeper than the remaining depth budget
renders to text containing the truncation marker. -/
theorem nest_marker (n : Nat) : ∀ (d hl ind m : Nat) (unl tbl : Bool), m < d + n →
    strContains (convertValue (nestObj n) d hl ind unl tbl m) truncationMarker = true := by
  induction n with
  | zero =>
    intro d hl ind m unl tbl h
    have hf : m + 1 - d = 0 := by omega
    rw [convertValue, hf]
    exact strContains_self truncationMarker
  | succ k ih =>
    intro d hl ind m unl tbl h
    by_cases hd : m < d
    · have hf : m + 1 - d = 0 := by omega
      rw [convertValue, hf]
      exact strContains_self truncationMarker
    · rw [convertValue_nest_step k d hl ind m unl tbl (by omega)]
      have hsub := ih (d + 1) hl ind m unl tbl (by omega)
      by_cases hp : isPrimitive (nestObj k) = true
      · rw [if_pos hp]
        exact strContains_append_right _ _ _ hsub
      · rw [if_neg hp]
        exact strContains_append_right _ _ _ hsub

/-- C9: the depth guard — whenever the depth counter exceeds `maxDepth`,
`convertValue` emits the fixed truncation marker and stops, regardless of the
value at hand; consequently encoding a structure nested deeper than `maxDepth`
(e.g. 15 levels with `maxDepth` 10) yields text containing the marker. -/
theorem c9_depth_guard :
    (∀ (v : Json) (d hl ind m : Nat) (unl tbl : Bool), m < d →
      convertValue v d hl ind unl tbl m = truncationMarker)
  ∧ (∀ n m : Nat, m < n →
      strContains (jsonToMarkdown (nestObj n) { maxDepth := m }) truncationMarker = true) := by
  constructor
  · intro v d hl ind m unl tbl h
    have hf : m + 1 - d = 0 := by omega
    rw [convertValue, hf]
    rfl
  · intro n m h
    exact nest_marker n 0 1 2 m false false (by omega)

/-- Witness for `c9_depth_guard`: the guard at depth 11 with ceiling 10, and
the 15-level / `maxDepth: 10` encoding of the claim. -/
theorem c9_depth_guard_witness :
    ((10 : Nat) < 11 ∧ convertValue (Json.str "x") 11 1 2 false false 10 = truncationMarker)
  ∧ ((10 : Nat) < 15 ∧
      strContains (jsonToMarkdown (nestObj 15) { maxDepth := 10 }) truncationMarker = true) :=
  ⟨⟨by decide, c9_depth_guard.1 (Json.str "x") 11 1 2 10 false false (by decide)⟩,
   ⟨by decide, c9_depth_guard.2 15 10 (by decide)⟩⟩

end JsonMdBridge
